import Mathlib

/-! The `contract` runtime contract checker.

A shallow embedding of `include/contract/contract.hpp`,
`include/contract/contract_exception.hpp` and of the function `test` of
`test/test.cpp`, followed by theorems about them.

Effect model.

The C++ code acts on the outside world in three ways: it invokes the functors it
is given, it writes to `std::cerr`, and it leaves a function either by
returning, by throwing a `contract_exception`, or by calling `std::terminate`.

* `World σ` is the state that is passed explicitly.  `env` holds the program
  variables that the functors capture by reference (a functor is a total
  `σ → Bool` reading them), `cerr` is the text written to `std::cerr` by the
  program so far, and `calls` is the record of the functors invoked so far,
  oldest first.
* `Outcome α` is the way a call ends.

Conventions taken from the C++ language rather than from the text of the
source:

* `~contract()` has no exception specification, and all members of `contract`
  have non-throwing destructors, so the destructor is implicitly `noexcept`:
  an exception that leaves its body ends in `std::terminate`.
* a temporary is destroyed at the end of the full-expression that created it,
  and local objects are destroyed when an exception unwinds their scope.
* the enumerations only take their named values, so the `default:` labels of
  the source are unreachable.
* `std::logic_error::what()` returns a NUL-terminated `const char*`, so the
  description of a `contract_exception` is its message up to the first NUL
  character, while `std::cerr << message` writes the whole `std::string`.
-/

/-! ## `contract_exception.hpp` -/

/-- The text that a `std::string` gives when it is read through a
NUL-terminated `const char*`: its characters before the first NUL character. -/
def c_str (s : String) : String :=
  String.mk (s.data.takeWhile (fun ch => ch != Char.ofNat 0))

/-- The exception type `contract_exception`, a `std::logic_error`.  The one
thing that can be read back from it is its description `what()`, a
NUL-terminated `const char*`. -/
structure contract_exception where
  what : String
deriving DecidableEq

/-- The constructor `contract_exception(const std::string& message)`, which
passes the message to `std::logic_error`: `what()` then reads the message as a
C string. -/
def contract_exception.ctor (message : String) : contract_exception :=
  { what := c_str message }

/-! ## The effect model -/

/-- How a call ends: normal return with a value, a `contract_exception` that
propagates to the caller, or `std::terminate`. -/
inductive Outcome (α : Type) where
  | returned (a : α)
  | thrown (ex : contract_exception)
  | terminated
deriving DecidableEq

/-- The explicit state: captured program variables, the text written to
`std::cerr`, and the functors invoked so far. -/
structure World (σ : Type) where
  env : σ
  cerr : String
  calls : List (σ → Bool)

/-- The effect of `std::cerr << s`. -/
def World.write {σ : Type} (w : World σ) (s : String) : World σ :=
  { w with cerr := w.cerr ++ s }

/-- The effect of calling `functor()`: the call is recorded, the result is what
the functor reads from the captured variables. -/
def World.invoke {σ : Type} (w : World σ) (functor : σ → Bool) : Bool × World σ :=
  (functor w.env, { w with calls := w.calls ++ [functor] })

/-! ## `contract.hpp` -/

/-- The type `contract::functor_t`, `std::function<bool()>`. -/
abbrev contract.functor_t (σ : Type) : Type := σ → Bool

/-- The enumeration `contract::behavior`. -/
inductive contract.behavior where
  | ignore
  | log
  | exception
  | terminate
  | log_and_exception
  | log_and_terminate
deriving DecidableEq

/-- The enumeration `contract::evaluation`. -/
inductive contract.evaluation where
  | unevaluated
  | always
  | debug
deriving DecidableEq

/-- The private enumeration `contract::type`. -/
inductive contract.type where
  | precondition
  | condition
  | postcondition
deriving DecidableEq

/-- The private struct `contract::post`. -/
structure contract.post (σ : Type) where
  functor : contract.functor_t σ
  message : String

/-- The data members of `struct contract`, in declaration order. -/
structure contract (σ : Type) where
  postconditions : List (contract.post σ)
  function_name : String
  b : contract.behavior
  e : contract.evaluation

namespace contract

variable {σ : Type}

/-- The constructor `contract(function_name, b, e)`; `postconditions` takes its
default member initialiser `{}`. -/
def ctor (function_name : String) (b : behavior) (e : evaluation) : contract σ :=
  { postconditions := [], function_name := function_name, b := b, e := e }

/-- The constructor called with a name only: the default arguments are
`behavior::ignore` and `evaluation::unevaluated`. -/
def ctor_name (function_name : String) : contract σ :=
  ctor function_name behavior.ignore evaluation.unevaluated

/-- The defaulted default constructor `contract() = default`: every member
takes its default member initialiser. -/
def ctor_default : contract σ :=
  { postconditions := [], function_name := "", b := behavior.ignore,
    e := evaluation.unevaluated }

/-- The defaulted copy constructor `contract(const contract& other)`:
memberwise copy. -/
def ctor_copy (other : contract σ) : contract σ :=
  { postconditions := other.postconditions, function_name := other.function_name,
    b := other.b, e := other.e }

/-- The private method `contract::log`. -/
def log (c : contract σ) (message : String) (t : type) (w : World σ) : World σ :=
  let w1 :=
    match t with
    | type.precondition => w.write "precondition failed"
    | type.condition => w.write "condition failed"
    | type.postcondition => w.write "postcondition failed"
  let w2 :=
    if !c.function_name.isEmpty then (w1.write " in ").write c.function_name else w1
  let w3 :=
    if !message.isEmpty then (w2.write ": ").write message else w2
  w3.write "\n"

/-- The body of `case evaluation::always:` in `contract::evaluate`: call the
functor and, when it returns false, act according to the behavior. -/
def evaluate_always (c : contract σ) (functor : functor_t σ) (message : String)
    (t : type) (w : World σ) : Outcome Unit × World σ :=
  let r := w.invoke functor
  let result := r.1
  let w1 := r.2
  if !result then
    match c.b with
    | behavior.ignore => (Outcome.returned (), w1)
    | behavior.log => (Outcome.returned (), c.log message t w1)
    | behavior.exception => (Outcome.thrown (contract_exception.ctor message), w1)
    | behavior.terminate => (Outcome.terminated, w1)
    | behavior.log_and_exception =>
        (Outcome.thrown (contract_exception.ctor message), c.log message t w1)
    | behavior.log_and_terminate => (Outcome.terminated, c.log message t w1)
  else
    (Outcome.returned (), w1)

/-- The private method `contract::evaluate`.  `ndebug` tells whether the
translation unit was compiled with `NDEBUG` defined: with it the case
`evaluation::debug` breaks, without it the case falls through to
`evaluation::always`. -/
def evaluate (ndebug : Bool) (c : contract σ) (functor : functor_t σ)
    (message : String) (t : type) (w : World σ) : Outcome Unit × World σ :=
  match c.e with
  | evaluation.unevaluated => (Outcome.returned (), w)
  | evaluation.debug =>
      if ndebug then (Outcome.returned (), w) else c.evaluate_always functor message t w
  | evaluation.always => c.evaluate_always functor message t w

/-- The method `contract::precondition`: evaluate now, then `return *this`. -/
def precondition (ndebug : Bool) (c : contract σ) (functor : functor_t σ)
    (message : String) (w : World σ) : Outcome (contract σ) × World σ :=
  match c.evaluate ndebug functor message type.precondition w with
  | (Outcome.returned _, w1) => (Outcome.returned c, w1)
  | (Outcome.thrown ex, w1) => (Outcome.thrown ex, w1)
  | (Outcome.terminated, w1) => (Outcome.terminated, w1)

/-- The method `contract::postcondition`: `push_back` a `post`, then
`return *this`. -/
def postcondition (c : contract σ) (functor : functor_t σ) (message : String)
    (w : World σ) : Outcome (contract σ) × World σ :=
  (Outcome.returned
      { c with postconditions := c.postconditions ++ [{ functor := functor, message := message }] },
    w)

/-- The method `contract::condition`: evaluate now, then `return *this`. -/
def condition (ndebug : Bool) (c : contract σ) (functor : functor_t σ)
    (message : String) (w : World σ) : Outcome (contract σ) × World σ :=
  match c.evaluate ndebug functor message type.condition w with
  | (Outcome.returned _, w1) => (Outcome.returned c, w1)
  | (Outcome.thrown ex, w1) => (Outcome.thrown ex, w1)
  | (Outcome.terminated, w1) => (Outcome.terminated, w1)

/-- The range-for loop in the body of `~contract()`, over the postconditions
that are still to be visited.  An evaluation that throws or terminates leaves
the loop. -/
def destructor_body (ndebug : Bool) (c : contract σ) :
    List (post σ) → World σ → Outcome Unit × World σ
  | [], w => (Outcome.returned (), w)
  | cond :: rest, w =>
      match c.evaluate ndebug cond.functor cond.message type.postcondition w with
      | (Outcome.returned _, w1) => destructor_body ndebug c rest w1
      | (Outcome.thrown ex, w1) => (Outcome.thrown ex, w1)
      | (Outcome.terminated, w1) => (Outcome.terminated, w1)

/-- The destructor `~contract()`: the loop over `postconditions`, inside an
implicitly `noexcept` function, so an exception that leaves the loop calls
`std::terminate`. -/
def destructor (ndebug : Bool) (c : contract σ) (w : World σ) : Outcome Unit × World σ :=
  match c.destructor_body ndebug c.postconditions w with
  | (Outcome.returned _, w1) => (Outcome.returned (), w1)
  | (Outcome.thrown _, w1) => (Outcome.terminated, w1)
  | (Outcome.terminated, w1) => (Outcome.terminated, w1)

end contract

/-! ## `test.cpp` -/

/-- The smallest value of `int` (32 bits). -/
def INT_MIN : Int := -2147483648

/-- The largest value of `int` (32 bits). -/
def INT_MAX : Int := 2147483647

/-- The result of an `int` operation whose mathematical value is `x`.  Signed
overflow is undefined in C++; here it wraps modulo `2 ^ 32`, and the theorems
about `test` assume that no overflow occurs. -/
def int_wrap (x : Int) : Int := (x + 2147483648) % 4294967296 - 2147483648

/-- The variables of `test` that its lambdas capture by reference. -/
structure test_env where
  value : Int
  value_before : Int

/-- The lambda `[&]{ return value % 2 == 0; }`. -/
def test_precondition : contract.functor_t test_env :=
  fun env => Int.tmod env.value 2 == 0

/-- The lambda `[&]{ return value == value_before * 2; }`. -/
def test_postcondition : contract.functor_t test_env :=
  fun env => env.value == int_wrap (env.value_before * 2)

/-- The function `test(int value)` of `test.cpp`, started with nothing written
and nothing invoked.

The initialiser of `_` is a chain on a temporary contract.  `postcondition`
returns `contract&`, so `_` is copy-constructed from the temporary, and the
temporary is destroyed at the end of the declaration, before `value *= 2`.
`_` is destroyed when the scope is left. -/
def test (ndebug : Bool) (value : Int) : Outcome Unit × World test_env :=
  let w0 : World test_env :=
    { env := { value := value, value_before := value }, cerr := "", calls := [] }
  let tmp : contract test_env :=
    contract.ctor "test" contract.behavior.log_and_exception contract.evaluation.always
  match tmp.precondition ndebug test_precondition "" w0 with
  | (Outcome.terminated, w1) => (Outcome.terminated, w1)
  | (Outcome.thrown ex, w1) =>
      match tmp.destructor ndebug w1 with
      | (Outcome.returned _, w2) => (Outcome.thrown ex, w2)
      | (_, w2) => (Outcome.terminated, w2)
  | (Outcome.returned tmp1, w1) =>
      match tmp1.postcondition test_postcondition "" w1 with
      | (Outcome.terminated, w2) => (Outcome.terminated, w2)
      | (Outcome.thrown ex, w2) =>
          match tmp1.destructor ndebug w2 with
          | (Outcome.returned _, w3) => (Outcome.thrown ex, w3)
          | (_, w3) => (Outcome.terminated, w3)
      | (Outcome.returned tmp2, w2) =>
          let underscore := contract.ctor_copy tmp2
          match tmp2.destructor ndebug w2 with
          | (Outcome.terminated, w3) => (Outcome.terminated, w3)
          | (Outcome.thrown ex, w3) =>
              match underscore.destructor ndebug w3 with
              | (Outcome.returned _, w4) => (Outcome.thrown ex, w4)
              | (_, w4) => (Outcome.terminated, w4)
          | (Outcome.returned _, w3) =>
              let w4 : World test_env :=
                { w3 with env := { w3.env with value := int_wrap (w3.env.value * 2) } }
              underscore.destructor ndebug w4

/-! ## Specification-side definitions -/

/-- The diagnostic verb of a check kind, in the spec's words: "precondition
failed" / "condition failed" / "postcondition failed". -/
def diagnostic_verb : contract.type → String
  | contract.type.precondition => "precondition failed"
  | contract.type.condition => "condition failed"
  | contract.type.postcondition => "postcondition failed"

/-- The diagnostic line in the spec's words:
`<kind> failed[ in <name>][: <message>]\n`, a bracketed clause being omitted
when its source string is empty. -/
def diagnostic_line (k : contract.type) (n m : String) : String :=
  diagnostic_verb k ++ (if n = "" then "" else " in " ++ n) ++
    (if m = "" then "" else ": " ++ m) ++ "\n"

/-- Whether the evaluation policy causes the functor to be called, given the
build mode. -/
def evaluated (ndebug : Bool) : contract.evaluation → Bool
  | contract.evaluation.unevaluated => false
  | contract.evaluation.always => true
  | contract.evaluation.debug => !ndebug

/-- The chain `c.postcondition(f1, m1). ... .postcondition(fn, mn)`. -/
def postcondition_chain {σ : Type} (c : contract σ) :
    List (contract.functor_t σ × String) → World σ → Outcome (contract σ) × World σ
  | [], w => (Outcome.returned c, w)
  | r :: rest, w =>
      match c.postcondition r.1 r.2 w with
      | (Outcome.returned c1, w1) => postcondition_chain c1 rest w1
      | (Outcome.thrown ex, w1) => (Outcome.thrown ex, w1)
      | (Outcome.terminated, w1) => (Outcome.terminated, w1)

/-- The text of the diagnostic lines of the postchecks in `regs` whose functor
returns false on `env`, in the order of `regs`. -/
def failed_lines {σ : Type} (name : String) (env : σ) :
    List (contract.functor_t σ × String) → String
  | [] => ""
  | r :: rest =>
      (if r.1 env then "" else diagnostic_line contract.type.postcondition name r.2) ++
        failed_lines name env rest

/-! ## Concrete inputs -/

/-- A functor that returns false whatever it reads. -/
def always_false : contract.functor_t Unit := fun _ => false

/-- A functor that returns true whatever it reads. -/
def always_true : contract.functor_t Unit := fun _ => true

/-- A message of three characters, the second of which is the NUL
character. -/
def nul_message : String := "a\x00b"

/-- A world in which nothing has been written and nothing invoked. -/
def fresh_world : World Unit := { env := (), cerr := "", calls := [] }

/-- A contract named `f` with two pending postchecks, the first of which
fails. -/
def two_postchecks (b : contract.behavior) (e : contract.evaluation) : contract Unit :=
  { postconditions :=
      [{ functor := always_false, message := "first" },
       { functor := always_true, message := "second" }],
    function_name := "f", b := b, e := e }

/-! ## Chains of calls -/

/-- The way a call ends, with the returned value forgotten. -/
def Outcome.discard {α : Type} : Outcome α → Outcome Unit
  | Outcome.returned _ => Outcome.returned ()
  | Outcome.thrown ex => Outcome.thrown ex
  | Outcome.terminated => Outcome.terminated

/-- One call of the chaining interface of `contract`, with its arguments. -/
inductive check_call (σ : Type) where
  | precondition (functor : contract.functor_t σ) (message : String)
  | condition (functor : contract.functor_t σ) (message : String)
  | postcondition (functor : contract.functor_t σ) (message : String)

/-- A single call of the chaining interface on `c`. -/
def check_call.run {σ : Type} (ndebug : Bool) (c : contract σ) :
    check_call σ → World σ → Outcome (contract σ) × World σ
  | check_call.precondition f m, w => c.precondition ndebug f m w
  | check_call.condition f m, w => c.condition ndebug f m w
  | check_call.postcondition f m, w => c.postcondition f m w

/-- The chain `c.call1(..).call2(..). ... .calln(..)`: each call acts on the
contract returned by the one before it, and a call that throws or terminates
ends the chain. -/
def call_chain {σ : Type} (ndebug : Bool) (c : contract σ) :
    List (check_call σ) → World σ → Outcome (contract σ) × World σ
  | [], w => (Outcome.returned c, w)
  | call :: rest, w =>
      match call.run ndebug c w with
      | (Outcome.returned c1, w1) => call_chain ndebug c1 rest w1
      | (Outcome.thrown ex, w1) => (Outcome.thrown ex, w1)
      | (Outcome.terminated, w1) => (Outcome.terminated, w1)

/-! ## Shared lemmas -/

theorem log_eq {σ : Type} (c : contract σ) (message : String) (t : contract.type)
    (w : World σ) :
    c.log message t w =
      { env := w.env, cerr := w.cerr ++ diagnostic_line t c.function_name message,
        calls := w.calls } := by
  have hn : c.function_name = "" ↔ c.function_name.isEmpty = true :=
    (String.isEmpty_iff _).symm
  have hm : message = "" ↔ message.isEmpty = true := (String.isEmpty_iff _).symm
  unfold contract.log diagnostic_line
  cases t <;> by_cases h1 : c.function_name.isEmpty = true <;>
    by_cases h2 : message.isEmpty = true <;>
    simp [-String.reduceAppend, World.write, diagnostic_verb, hn, hm, h1, h2, String.append_assoc]

theorem evaluate_always_true {σ : Type} (c : contract σ) (f : contract.functor_t σ)
    (m : String) (t : contract.type) (w : World σ) (hf : f w.env = true) :
    c.evaluate_always f m t w =
      (Outcome.returned (), { env := w.env, cerr := w.cerr, calls := w.calls ++ [f] }) := by
  simp [contract.evaluate_always, World.invoke, hf]

theorem evaluate_always_false {σ : Type} (c : contract σ) (f : contract.functor_t σ)
    (m : String) (t : contract.type) (w : World σ) (hf : f w.env = false) :
    c.evaluate_always f m t w =
      match c.b with
      | contract.behavior.ignore =>
          (Outcome.returned (), { env := w.env, cerr := w.cerr, calls := w.calls ++ [f] })
      | contract.behavior.log =>
          (Outcome.returned (),
            { env := w.env, cerr := w.cerr ++ diagnostic_line t c.function_name m,
              calls := w.calls ++ [f] })
      | contract.behavior.exception =>
          (Outcome.thrown (contract_exception.ctor m),
            { env := w.env, cerr := w.cerr, calls := w.calls ++ [f] })
      | contract.behavior.terminate =>
          (Outcome.terminated, { env := w.env, cerr := w.cerr, calls := w.calls ++ [f] })
      | contract.behavior.log_and_exception =>
          (Outcome.thrown (contract_exception.ctor m),
            { env := w.env, cerr := w.cerr ++ diagnostic_line t c.function_name m,
              calls := w.calls ++ [f] })
      | contract.behavior.log_and_terminate =>
          (Outcome.terminated,
            { env := w.env, cerr := w.cerr ++ diagnostic_line t c.function_name m,
              calls := w.calls ++ [f] }) := by
  cases hb : c.b <;> simp [contract.evaluate_always, World.invoke, hf, hb, log_eq]

theorem evaluate_of_evaluated {σ : Type} (ndebug : Bool) (c : contract σ)
    (f : contract.functor_t σ) (m : String) (t : contract.type) (w : World σ)
    (h : evaluated ndebug c.e = true) :
    c.evaluate ndebug f m t w = c.evaluate_always f m t w := by
  cases he : c.e <;> cases ndebug <;> simp_all [contract.evaluate, evaluated]

theorem evaluate_of_not_evaluated {σ : Type} (ndebug : Bool) (c : contract σ)
    (f : contract.functor_t σ) (m : String) (t : contract.type) (w : World σ)
    (h : evaluated ndebug c.e = false) :
    c.evaluate ndebug f m t w = (Outcome.returned (), w) := by
  cases he : c.e <;> cases ndebug <;> simp_all [contract.evaluate, evaluated]

theorem postcondition_chain_eq {σ : Type} (regs : List (contract.functor_t σ × String))
    (c : contract σ) (w : World σ) :
    postcondition_chain c regs w =
      (Outcome.returned
        { postconditions :=
            c.postconditions ++
              regs.map (fun r => ({ functor := r.1, message := r.2 } : contract.post σ)),
          function_name := c.function_name, b := c.b, e := c.e }, w) := by
  induction regs generalizing c with
  | nil => simp [postcondition_chain]
  | cons r rest ih => simp [postcondition_chain, contract.postcondition, ih]

/-- While the postchecks pass, the loop of the destructor goes on. -/
theorem destructor_body_passing {σ : Type} (ndebug : Bool) (c : contract σ)
    (passed rest : List (contract.post σ)) (w : World σ)
    (he : evaluated ndebug c.e = true)
    (hpassed : ∀ q ∈ passed, q.functor w.env = true) :
    c.destructor_body ndebug (passed ++ rest) w =
      c.destructor_body ndebug rest
        { env := w.env, cerr := w.cerr,
          calls := w.calls ++ passed.map contract.post.functor } := by
  induction passed generalizing w with
  | nil => simp [contract.destructor_body]
  | cons q qs ih =>
      have hq : q.functor w.env = true := hpassed q (List.mem_cons_self _ _)
      have hqs : ∀ r ∈ qs, r.functor w.env = true :=
        fun r hr => hpassed r (List.mem_cons_of_mem _ hr)
      simp [contract.destructor_body, evaluate_of_evaluated ndebug c _ _ _ _ he,
        evaluate_always_true c _ _ _ _ hq]
      rw [ih { env := w.env, cerr := w.cerr, calls := w.calls ++ [q.functor] } hqs]
      simp

/-- Under a behavior that neither throws nor terminates the loop of the
destructor visits every postcheck. -/
theorem destructor_body_nonthrowing {σ : Type} (ndebug : Bool) (c : contract σ)
    (regs : List (contract.functor_t σ × String)) (w : World σ)
    (he : evaluated ndebug c.e = true)
    (hb : c.b = contract.behavior.ignore ∨ c.b = contract.behavior.log) :
    c.destructor_body ndebug
        (regs.map (fun r => ({ functor := r.1, message := r.2 } : contract.post σ))) w =
      (Outcome.returned (),
        { env := w.env,
          cerr := w.cerr ++
            (if c.b = contract.behavior.log then failed_lines c.function_name w.env regs
             else ""),
          calls := w.calls ++ regs.map Prod.fst }) := by
  induction regs generalizing w with
  | nil => simp [contract.destructor_body, failed_lines]
  | cons r rest ih =>
      cases hr : r.1 w.env
      · rcases hb with hb | hb
        · simp [contract.destructor_body, evaluate_of_evaluated ndebug c _ _ _ _ he,
            evaluate_always_false c _ _ _ _ hr, hb, ih]
        · simp [contract.destructor_body, evaluate_of_evaluated ndebug c _ _ _ _ he,
            evaluate_always_false c _ _ _ _ hr, hb, ih, failed_lines, hr,
            String.append_assoc]
      · rcases hb with hb | hb <;>
          simp [contract.destructor_body, evaluate_of_evaluated ndebug c _ _ _ _ he,
            evaluate_always_true c _ _ _ _ hr, hb, ih, failed_lines, hr]

theorem int_wrap_of_in_range (x : Int) (hmin : INT_MIN ≤ x) (hmax : x ≤ INT_MAX) :
    int_wrap x = x := by
  unfold int_wrap
  unfold INT_MIN at hmin
  unfold INT_MAX at hmax
  omega

theorem destructor_nil {σ : Type} (ndebug : Bool) (c : contract σ) (w : World σ)
    (h : c.postconditions = []) : c.destructor ndebug w = (Outcome.returned (), w) := by
  simp [contract.destructor, h, contract.destructor_body]

/-- What `test` does on every even value other than zero whose double is
representable: the temporary contract is destroyed before `value *= 2`, its
postcheck fails, the line is written and the exception leaves a destructor. -/
theorem test_even_nonzero (ndebug : Bool) (value : Int) (heven : value % 2 = 0)
    (hne : value ≠ 0) (hmin : INT_MIN ≤ value * 2) (hmax : value * 2 ≤ INT_MAX) :
    test ndebug value =
      (Outcome.terminated,
        { env := { value := value, value_before := value },
          cerr := "postcondition failed in test\n",
          calls := [test_precondition, test_postcondition] }) := by
  have hpre : test_precondition { value := value, value_before := value } = true := by
    have : Int.tmod value 2 = 0 := Int.tmod_eq_zero_of_dvd (Int.dvd_of_emod_eq_zero heven)
    simp [test_precondition, this]
  have hpost : test_postcondition { value := value, value_before := value } = false := by
    have hw := int_wrap_of_in_range (value * 2) hmin hmax
    simp only [test_postcondition, hw]
    simp
    omega
  simp [test, contract.precondition, contract.postcondition, contract.ctor,
    contract.ctor_copy, contract.destructor, contract.destructor_body, contract.evaluate,
    contract.evaluate_always, World.invoke, hpre, hpost, log_eq]
  decide

/-- What `test` does on zero: both destructions find the postcheck true. -/
theorem test_zero (ndebug : Bool) :
    test ndebug 0 =
      (Outcome.returned (),
        { env := { value := 0, value_before := 0 }, cerr := "",
          calls := [test_precondition, test_postcondition, test_postcondition] }) := by
  cases ndebug <;> rfl

theorem destructor_body_not_evaluated {σ : Type} (ndebug : Bool) (c : contract σ)
    (posts : List (contract.post σ)) (w : World σ) (he : evaluated ndebug c.e = false) :
    c.destructor_body ndebug posts w = (Outcome.returned (), w) := by
  induction posts with
  | nil => simp [contract.destructor_body]
  | cons q qs ih =>
      simp [contract.destructor_body, evaluate_of_not_evaluated ndebug c _ _ _ _ he, ih]

theorem evaluate_true {σ : Type} (ndebug : Bool) (c : contract σ)
    (f : contract.functor_t σ) (m : String) (t : contract.type) (w : World σ)
    (hf : f w.env = true) :
    c.evaluate ndebug f m t w =
      (Outcome.returned (),
        { env := w.env, cerr := w.cerr,
          calls := if evaluated ndebug c.e then w.calls ++ [f] else w.calls }) := by
  cases h : evaluated ndebug c.e
  · simp [evaluate_of_not_evaluated ndebug c _ _ _ _ h]
  · simp [evaluate_of_evaluated ndebug c _ _ _ _ h, evaluate_always_true c _ _ _ _ hf]

theorem destructor_body_all_true {σ : Type} (ndebug : Bool) (c : contract σ)
    (posts : List (contract.post σ)) (w : World σ)
    (hposts : ∀ q ∈ posts, q.functor w.env = true) :
    (c.destructor_body ndebug posts w).1 = Outcome.returned () ∧
      (c.destructor_body ndebug posts w).2.cerr = w.cerr := by
  induction posts generalizing w with
  | nil => simp [contract.destructor_body]
  | cons q qs ih =>
      have hq : q.functor w.env = true := hposts q (List.mem_cons_self _ _)
      have hqs : ∀ r ∈ qs, r.functor w.env = true :=
        fun r hr => hposts r (List.mem_cons_of_mem _ hr)
      have h := ih
        { env := w.env, cerr := w.cerr,
          calls := if evaluated ndebug c.e then w.calls ++ [q.functor] else w.calls } hqs
      simpa [contract.destructor_body, evaluate_true ndebug c _ _ _ _ hq] using h

theorem evaluate_ignore {σ : Type} (ndebug : Bool) (c : contract σ)
    (f : contract.functor_t σ) (m : String) (t : contract.type) (w : World σ)
    (hb : c.b = contract.behavior.ignore) :
    c.evaluate ndebug f m t w =
      (Outcome.returned (),
        { env := w.env, cerr := w.cerr,
          calls := if evaluated ndebug c.e then w.calls ++ [f] else w.calls }) := by
  cases h : evaluated ndebug c.e
  · simp [evaluate_of_not_evaluated ndebug c _ _ _ _ h]
  · cases hf : f w.env
    · simp [evaluate_of_evaluated ndebug c _ _ _ _ h, evaluate_always_false c _ _ _ _ hf, hb]
    · simp [evaluate_of_evaluated ndebug c _ _ _ _ h, evaluate_always_true c _ _ _ _ hf]

theorem destructor_body_ignore {σ : Type} (ndebug : Bool) (c : contract σ)
    (posts : List (contract.post σ)) (w : World σ)
    (hb : c.b = contract.behavior.ignore) :
    (c.destructor_body ndebug posts w).1 = Outcome.returned () ∧
      (c.destructor_body ndebug posts w).2.cerr = w.cerr ∧
      (c.destructor_body ndebug posts w).2.env = w.env := by
  induction posts generalizing w with
  | nil => simp [contract.destructor_body]
  | cons q qs ih =>
      have h := ih
        { env := w.env, cerr := w.cerr,
          calls := if evaluated ndebug c.e then w.calls ++ [q.functor] else w.calls }
      simpa [contract.destructor_body, evaluate_ignore ndebug c _ _ _ _ hb] using h

theorem destructor_snd {σ : Type} (ndebug : Bool) (c : contract σ) (w : World σ) :
    (c.destructor ndebug w).2 = (c.destructor_body ndebug c.postconditions w).2 := by
  unfold contract.destructor
  generalize c.destructor_body ndebug c.postconditions w = r
  rcases r with ⟨o, w1⟩
  cases o <;> rfl

theorem destructor_returned_iff {σ : Type} (ndebug : Bool) (c : contract σ) (w : World σ) :
    (c.destructor ndebug w).1 = Outcome.returned () ↔
      (c.destructor_body ndebug c.postconditions w).1 = Outcome.returned () := by
  unfold contract.destructor
  generalize c.destructor_body ndebug c.postconditions w = r
  rcases r with ⟨o, w1⟩
  cases o <;> simp

theorem evaluate_calls {σ : Type} (ndebug : Bool) (c : contract σ)
    (f : contract.functor_t σ) (m : String) (t : contract.type) (w : World σ) :
    (c.evaluate ndebug f m t w).2.calls =
      if evaluated ndebug c.e then w.calls ++ [f] else w.calls := by
  cases h : evaluated ndebug c.e
  · simp [evaluate_of_not_evaluated ndebug c _ _ _ _ h]
  · cases hf : f w.env
    · cases hb : c.b <;>
        simp [evaluate_of_evaluated ndebug c _ _ _ _ h, evaluate_always_false c _ _ _ _ hf, hb]
    · simp [evaluate_of_evaluated ndebug c _ _ _ _ h, evaluate_always_true c _ _ _ _ hf]

/-- The functors that the loop of the destructor invokes are an initial segment
of the pending ones, in order. -/
theorem destructor_body_calls_initial {σ : Type} (ndebug : Bool) (c : contract σ)
    (posts : List (contract.post σ)) (w : World σ) :
    ∃ k, (c.destructor_body ndebug posts w).2.calls =
      w.calls ++ (posts.take k).map contract.post.functor := by
  cases hev : evaluated ndebug c.e
  · exact ⟨0, by simp [destructor_body_not_evaluated ndebug c posts w hev]⟩
  · induction posts generalizing w with
    | nil => exact ⟨0, by simp [contract.destructor_body]⟩
    | cons q qs ih =>
        have hc := evaluate_calls ndebug c q.functor q.message contract.type.postcondition w
        rw [hev] at hc
        simp only [contract.destructor_body]
        generalize c.evaluate ndebug q.functor q.message contract.type.postcondition w = r
          at hc
        rcases r with ⟨o, w1⟩
        cases o with
        | returned a =>
            obtain ⟨k, hk⟩ := ih w1
            refine ⟨k + 1, ?_⟩
            simp only [hk]
            simp at hc
            simp [hc]
        | thrown ex =>
            refine ⟨1, ?_⟩
            simp at hc
            simp [hc]
        | terminated =>
            refine ⟨1, ?_⟩
            simp at hc
            simp [hc]

/-- The evaluation of a check depends on the contract only through its name,
its behavior and whether its policy causes the functor to be called. -/
theorem evaluate_congr {σ : Type} (nd1 nd2 : Bool) (c1 c2 : contract σ)
    (f : contract.functor_t σ) (m : String) (t : contract.type) (w : World σ)
    (hn : c1.function_name = c2.function_name) (hb : c1.b = c2.b)
    (he : evaluated nd1 c1.e = evaluated nd2 c2.e) :
    c1.evaluate nd1 f m t w = c2.evaluate nd2 f m t w := by
  cases h2 : evaluated nd2 c2.e
  · rw [h2] at he
    rw [evaluate_of_not_evaluated nd1 c1 _ _ _ _ he,
      evaluate_of_not_evaluated nd2 c2 _ _ _ _ h2]
  · rw [h2] at he
    rw [evaluate_of_evaluated nd1 c1 _ _ _ _ he, evaluate_of_evaluated nd2 c2 _ _ _ _ h2]
    simp [contract.evaluate_always, log_eq, hn, hb]

theorem destructor_body_congr {σ : Type} (nd1 nd2 : Bool) (c1 c2 : contract σ)
    (posts : List (contract.post σ)) (w : World σ)
    (hn : c1.function_name = c2.function_name) (hb : c1.b = c2.b)
    (he : evaluated nd1 c1.e = evaluated nd2 c2.e) :
    c1.destructor_body nd1 posts w = c2.destructor_body nd2 posts w := by
  induction posts generalizing w with
  | nil => simp [contract.destructor_body]
  | cons q qs ih =>
      simp only [contract.destructor_body, evaluate_congr nd1 nd2 c1 c2 _ _ _ _ hn hb he]
      generalize c2.evaluate nd2 q.functor q.message contract.type.postcondition w = r
      rcases r with ⟨o, w1⟩
      cases o <;> simp [ih]

theorem destructor_congr {σ : Type} (nd1 nd2 : Bool) (c1 c2 : contract σ) (w : World σ)
    (hp : c1.postconditions = c2.postconditions)
    (hn : c1.function_name = c2.function_name) (hb : c1.b = c2.b)
    (he : evaluated nd1 c1.e = evaluated nd2 c2.e) :
    c1.destructor nd1 w = c2.destructor nd2 w := by
  simp only [contract.destructor, hp,
    destructor_body_congr nd1 nd2 c1 c2 c2.postconditions w hn hb he]

theorem precondition_eq {σ : Type} (ndebug : Bool) (c : contract σ)
    (f : contract.functor_t σ) (m : String) (w : World σ) :
    (c.precondition ndebug f m w).1.discard =
        (c.evaluate ndebug f m contract.type.precondition w).1 ∧
      (c.precondition ndebug f m w).2 =
        (c.evaluate ndebug f m contract.type.precondition w).2 ∧
      ∀ c1, (c.precondition ndebug f m w).1 = Outcome.returned c1 → c1 = c := by
  unfold contract.precondition
  generalize c.evaluate ndebug f m contract.type.precondition w = r
  rcases r with ⟨o, w1⟩
  cases o <;> simp [Outcome.discard]

theorem condition_eq {σ : Type} (ndebug : Bool) (c : contract σ)
    (f : contract.functor_t σ) (m : String) (w : World σ) :
    (c.condition ndebug f m w).1.discard =
        (c.evaluate ndebug f m contract.type.condition w).1 ∧
      (c.condition ndebug f m w).2 =
        (c.evaluate ndebug f m contract.type.condition w).2 ∧
      ∀ c1, (c.condition ndebug f m w).1 = Outcome.returned c1 → c1 = c := by
  unfold contract.condition
  generalize c.evaluate ndebug f m contract.type.condition w = r
  rcases r with ⟨o, w1⟩
  cases o <;> simp [Outcome.discard]

theorem diagnostic_line_split (t : contract.type) (n m : String) :
    diagnostic_line t n m =
      diagnostic_verb t ++
        ((if n = "" then "" else " in " ++ n) ++ ((if m = "" then "" else ": " ++ m) ++ "\n")) := by
  simp only [diagnostic_line, String.append_assoc]

theorem test_precondition_odd (value value_before : Int) (hodd : value % 2 = 1) :
    test_precondition { value := value, value_before := value_before } = false := by
  have h : Int.tmod value 2 ≠ 0 := by
    intro h0
    have hd : (2 : Int) ∣ value := Int.dvd_of_tmod_eq_zero h0
    omega
  simp [test_precondition, h]

theorem check_call_run_config {σ : Type} (ndebug : Bool) (c c1 : contract σ)
    (call : check_call σ) (w : World σ)
    (h : (call.run ndebug c w).1 = Outcome.returned c1) :
    c1.function_name = c.function_name ∧ c1.b = c.b ∧ c1.e = c.e := by
  cases call with
  | precondition f m =>
      have := (precondition_eq ndebug c f m w).2.2 c1 h
      simp [this]
  | condition f m =>
      have := (condition_eq ndebug c f m w).2.2 c1 h
      simp [this]
  | postcondition f m =>
      simp only [check_call.run, contract.postcondition, Outcome.returned.injEq] at h
      simp [← h]

/-- Name, behavior and evaluation policy are the same at the end of a chain of
calls as at its start. -/
theorem call_chain_config {σ : Type} (ndebug : Bool) (calls : List (check_call σ))
    (c c1 : contract σ) (w : World σ)
    (h : (call_chain ndebug c calls w).1 = Outcome.returned c1) :
    c1.function_name = c.function_name ∧ c1.b = c.b ∧ c1.e = c.e := by
  induction calls generalizing c w with
  | nil =>
      simp only [call_chain, Outcome.returned.injEq] at h
      simp [← h]
  | cons call rest ih =>
      simp only [call_chain] at h
      have hrun := fun c2 => check_call_run_config ndebug c c2 call w
      generalize call.run ndebug c w = r at h hrun
      rcases r with ⟨o, w1⟩
      cases o with
      | returned c2 =>
          have h2 := hrun c2 rfl
          have h3 := ih c2 w1 h
          exact ⟨h3.1.trans h2.1, h3.2.1.trans h2.2.1, h3.2.2.trans h2.2.2⟩
      | thrown ex => simp at h
      | terminated => simp at h

/-- Under a policy that does not call the functors a chain of calls returns and
leaves the world as it was. -/
theorem call_chain_not_evaluated {σ : Type} (ndebug : Bool) (calls : List (check_call σ))
    (c : contract σ) (w : World σ) (he : evaluated ndebug c.e = false) :
    ∃ c1, call_chain ndebug c calls w = (Outcome.returned c1, w) ∧ c1.e = c.e := by
  induction calls generalizing c with
  | nil => exact ⟨c, rfl, rfl⟩
  | cons call rest ih =>
      cases call with
      | precondition f m =>
          obtain ⟨c1, h1, h2⟩ := ih c he
          exact ⟨c1, by
            simp [call_chain, check_call.run, contract.precondition,
              evaluate_of_not_evaluated ndebug c _ _ _ _ he, h1], h2⟩
      | condition f m =>
          obtain ⟨c1, h1, h2⟩ := ih c he
          exact ⟨c1, by
            simp [call_chain, check_call.run, contract.condition,
              evaluate_of_not_evaluated ndebug c _ _ _ _ he, h1], h2⟩
      | postcondition f m =>
          obtain ⟨c1, h1, h2⟩ := ih
            ({ c with postconditions :=
                c.postconditions ++ [{ functor := f, message := m }] } : contract σ) he
          exact ⟨c1, by
            simp [call_chain, check_call.run, contract.postcondition, h1], h2⟩

/-- Under evaluation and a behavior that neither throws nor terminates the
destructor returns having invoked every pending functor, in order. -/
theorem destructor_nonthrowing_calls {σ : Type} (ndebug : Bool) (c : contract σ)
    (w : World σ) (he : evaluated ndebug c.e = true)
    (hb : c.b = contract.behavior.ignore ∨ c.b = contract.behavior.log) :
    ∃ w1, c.destructor ndebug w = (Outcome.returned (), w1) ∧
      w1.calls = w.calls ++ c.postconditions.map contract.post.functor ∧
      w1.env = w.env := by
  have h := destructor_body_nonthrowing ndebug c
    (c.postconditions.map (fun p => (p.functor, p.message))) w he hb
  have hmap : (c.postconditions.map (fun p => (p.functor, p.message))).map
      (fun r => ({ functor := r.1, message := r.2 } : contract.post σ)) =
      c.postconditions := by
    simp [List.map_map, Function.comp_def]
  rw [hmap] at h
  refine ⟨{ env := w.env,
            cerr := w.cerr ++
              (if c.b = contract.behavior.log then
                failed_lines c.function_name w.env
                  (c.postconditions.map (fun p => (p.functor, p.message)))
               else ""),
            calls := w.calls ++
              (c.postconditions.map (fun p => (p.functor, p.message))).map Prod.fst },
    by simp only [contract.destructor, h], ?_, rfl⟩
  simp [List.map_map, Function.comp_def]

theorem ctor_what_empty : contract_exception.ctor "" = { what := "" } := by
  decide

/-- A message without a NUL character is read back whole. -/
theorem c_str_of_no_nul (m : String) (h : ∀ ch ∈ m.data, ch ≠ Char.ofNat 0) :
    c_str m = m := by
  unfold c_str
  have hd : m.data.takeWhile (fun ch => ch != Char.ofNat 0) = m.data := by
    rw [List.takeWhile_eq_self_iff]
    intro x hx
    simpa using h x hx
  rw [hd]

/-- What is read back is an initial part of the message and has no NUL
character in it. -/
theorem c_str_initial (m : String) :
    (∃ rest : String, m = c_str m ++ rest) ∧ ∀ ch ∈ (c_str m).data, ch ≠ Char.ofNat 0 := by
  constructor
  · refine ⟨String.mk (m.data.dropWhile (fun ch => ch != Char.ofNat 0)), ?_⟩
    apply String.ext
    simp [c_str, List.takeWhile_append_dropWhile]
  · intro ch hch
    have := List.mem_takeWhile_imp hch
    simpa using this

/-! ## The claims -/

/-- C1. For `test(2)` of `test.cpp` the claim says that no check fails, nothing
is written and the scope is left cleanly.  The code does otherwise: the
temporary contract is destroyed at the end of the declaration of `_`, before
`value *= 2`, so its postcheck `value == value_before * 2` reads `2 == 4`; the
line `postcondition failed in test` is written and the `contract_exception`
leaves the destructor, which ends in `std::terminate`.  The precondition functor
and the postcondition functor have each been invoked once and `value` is still
2. -/
theorem test_two_postcondition_fails (ndebug : Bool) :
    (test ndebug 2).1 = Outcome.terminated ∧
      (test ndebug 2).2.cerr = "postcondition failed in test\n" ∧
      (test ndebug 2).2.calls = [test_precondition, test_postcondition] ∧
      (test ndebug 2).2.env.value = 2 := by
  cases ndebug <;> exact ⟨by decide, by decide, rfl, by decide⟩

/-- C2, as stated, fails: with behavior `exception`, evaluation `always` and the
pending postchecks `always_false`, `always_true`, finalization invokes
`always_false` only, so the invocations are not the whole registered
sequence. -/
theorem destructor_skips_later_postchecks :
    ((two_postchecks contract.behavior.exception contract.evaluation.always).destructor
        false fresh_world).2.calls = [always_false] ∧
      ¬ ((two_postchecks contract.behavior.exception contract.evaluation.always).destructor
          false fresh_world).2.calls =
        fresh_world.calls ++
          (two_postchecks contract.behavior.exception
            contract.evaluation.always).postconditions.map contract.post.functor := by
  refine ⟨rfl, ?_⟩
  intro h
  have hl := congrArg List.length h
  revert hl
  decide

/-- C2, amended. For every contract with evaluation `always` and a throwing
behavior (`exception` or `log_and_exception`) whose pending postchecks are
`passed ++ p :: rest`, where every functor of `passed` returns true and the
functor of `p` returns false, finalization invokes exactly the functors of
`passed` and then that of `p`, each once, in registration order; no functor of
`rest` is invoked. -/
theorem destructor_stops_at_first_failure {σ : Type} (ndebug : Bool) (c : contract σ)
    (passed : List (contract.post σ)) (p : contract.post σ) (rest : List (contract.post σ))
    (w : World σ) (he : c.e = contract.evaluation.always)
    (hb : c.b = contract.behavior.exception ∨ c.b = contract.behavior.log_and_exception)
    (hc : c.postconditions = passed ++ p :: rest)
    (hpassed : ∀ q ∈ passed, q.functor w.env = true) (hp : p.functor w.env = false) :
    (c.destructor ndebug w).2.calls =
      w.calls ++ (passed ++ [p]).map contract.post.functor := by
  have hev : evaluated ndebug c.e = true := by simp [he, evaluated]
  have hbody := destructor_body_passing ndebug c passed (p :: rest) w hev hpassed
  have hf := evaluate_always_false c p.functor p.message contract.type.postcondition
    { env := w.env, cerr := w.cerr, calls := w.calls ++ passed.map contract.post.functor } hp
  rcases hb with hb | hb <;>
    simp [contract.destructor, hc, hbody, contract.destructor_body,
      evaluate_of_evaluated ndebug c _ _ _ _ hev, hf, hb]

theorem destructor_stops_at_first_failure_witness :
    (two_postchecks contract.behavior.log_and_exception contract.evaluation.always).e =
        contract.evaluation.always ∧
      ((two_postchecks contract.behavior.log_and_exception
          contract.evaluation.always).destructor true fresh_world).2.calls =
        fresh_world.calls ++
          ([] ++ [({ functor := always_false, message := "first" } : contract.post Unit)]).map
            contract.post.functor :=
  ⟨rfl,
    destructor_stops_at_first_failure true
      (two_postchecks contract.behavior.log_and_exception contract.evaluation.always) []
      { functor := always_false, message := "first" }
      [{ functor := always_true, message := "second" }] fresh_world rfl (Or.inr rfl) rfl
      (by simp) rfl⟩

/-- C3. For every contract constructed with evaluation `always` and behavior
`ignore` or `log`, and every sequence of registrations `(f1, m1) .. (fn, mn)`
made through `postcondition`, the registrations invoke and write nothing, and
finalization returns having invoked exactly `f1, .., fn`, each once and in that
order; under `log` the text written is exactly the `postcondition failed` lines
of the `fi` that return false, in registration order, and under `ignore`
nothing is written. -/
theorem postchecks_run_once_in_order {σ : Type} (ndebug : Bool) (name : String)
    (b : contract.behavior) (regs : List (contract.functor_t σ × String)) (w : World σ)
    (hb : b = contract.behavior.ignore ∨ b = contract.behavior.log) :
    ∃ c : contract σ,
      postcondition_chain (contract.ctor name b contract.evaluation.always) regs w =
          (Outcome.returned c, w) ∧
        c.destructor ndebug w =
          (Outcome.returned (),
            { env := w.env,
              cerr := w.cerr ++
                (if b = contract.behavior.log then failed_lines name w.env regs else ""),
              calls := w.calls ++ regs.map Prod.fst }) := by
  refine ⟨_, postcondition_chain_eq regs _ w, ?_⟩
  have h := destructor_body_nonthrowing ndebug
    ({ postconditions :=
          regs.map (fun r => ({ functor := r.1, message := r.2 } : contract.post σ)),
        function_name := name, b := b, e := contract.evaluation.always } : contract σ)
    regs w (by simp [evaluated]) hb
  simp only [contract.destructor, contract.ctor, List.nil_append, h]

theorem postchecks_run_once_in_order_witness :
    ∃ c : contract Unit,
      postcondition_chain (contract.ctor "f" contract.behavior.log contract.evaluation.always)
          [(always_false, "first"), (always_true, "second")] fresh_world =
          (Outcome.returned c, fresh_world) ∧
        c.destructor false fresh_world =
          (Outcome.returned (),
            { env := fresh_world.env,
              cerr := fresh_world.cerr ++
                (if contract.behavior.log = contract.behavior.log then
                  failed_lines "f" fresh_world.env
                    [(always_false, "first"), (always_true, "second")]
                 else ""),
              calls := fresh_world.calls ++
                [(always_false, "first"), (always_true, "second")].map Prod.fst }) :=
  postchecks_run_once_in_order false "f" contract.behavior.log
    [(always_false, "first"), (always_true, "second")] fresh_world (Or.inr rfl)

/-- C4. For every contract state, functor `f` and message `m`,
`postcondition(f, m)` returns normally with the world unchanged (no functor
invoked, nothing written), and the contract it returns has the old pending
sequence with `(f, m)` appended at the end and the same name, behavior and
evaluation policy. -/
theorem postcondition_only_registers {σ : Type} (c : contract σ)
    (f : contract.functor_t σ) (m : String) (w : World σ) :
    c.postcondition f m w =
      (Outcome.returned
        { postconditions := c.postconditions ++ [{ functor := f, message := m }],
          function_name := c.function_name, b := c.b, e := c.e }, w) := by
  rfl

/-- C5. Under evaluation policy `unevaluated`, for every behavior, build mode,
functor, message and pending postcheck sequence, `precondition`, `condition`
and finalization return normally and leave the world as it was: no functor is
invoked, nothing is written, nothing is raised and nothing terminates. -/
theorem unevaluated_invokes_nothing {σ : Type} (ndebug : Bool) (c : contract σ)
    (f : contract.functor_t σ) (m : String) (w : World σ)
    (he : c.e = contract.evaluation.unevaluated) :
    c.precondition ndebug f m w = (Outcome.returned c, w) ∧
      c.condition ndebug f m w = (Outcome.returned c, w) ∧
      c.destructor ndebug w = (Outcome.returned (), w) := by
  have hev : evaluated ndebug c.e = false := by simp [he, evaluated]
  refine ⟨?_, ?_, ?_⟩
  · simp [contract.precondition, evaluate_of_not_evaluated ndebug c _ _ _ _ hev]
  · simp [contract.condition, evaluate_of_not_evaluated ndebug c _ _ _ _ hev]
  · simp [contract.destructor, destructor_body_not_evaluated ndebug c _ _ hev]

theorem unevaluated_invokes_nothing_witness :
    (two_postchecks contract.behavior.log_and_terminate contract.evaluation.unevaluated).e =
        contract.evaluation.unevaluated ∧
      (two_postchecks contract.behavior.log_and_terminate
          contract.evaluation.unevaluated).destructor false fresh_world =
        (Outcome.returned (), fresh_world) :=
  ⟨rfl,
    (unevaluated_invokes_nothing false
      (two_postchecks contract.behavior.log_and_terminate contract.evaluation.unevaluated)
      always_false "m" fresh_world rfl).2.2⟩

/-- C6. For every behavior, evaluation policy, build mode, check kind and
message, a check whose functor returns true returns normally and leaves the
error stream as it was; this holds for the evaluation of each kind, for
`precondition` and `condition`, and for finalization when every pending
functor returns true. -/
theorem passing_check_has_no_effect {σ : Type} (ndebug : Bool) (c : contract σ)
    (f : contract.functor_t σ) (m : String) (w : World σ) (hf : f w.env = true) :
    (∀ t : contract.type,
        (c.evaluate ndebug f m t w).1 = Outcome.returned () ∧
          (c.evaluate ndebug f m t w).2.cerr = w.cerr) ∧
      ((c.precondition ndebug f m w).1 = Outcome.returned c ∧
        (c.precondition ndebug f m w).2.cerr = w.cerr) ∧
      ((c.condition ndebug f m w).1 = Outcome.returned c ∧
        (c.condition ndebug f m w).2.cerr = w.cerr) ∧
      ((∀ q ∈ c.postconditions, q.functor w.env = true) →
        (c.destructor ndebug w).1 = Outcome.returned () ∧
          (c.destructor ndebug w).2.cerr = w.cerr) := by
  refine ⟨fun t => ?_, ?_, ?_, fun hposts => ?_⟩
  · simp [evaluate_true ndebug c _ _ _ _ hf]
  · simp [contract.precondition, evaluate_true ndebug c _ _ _ _ hf]
  · simp [contract.condition, evaluate_true ndebug c _ _ _ _ hf]
  · have h := destructor_body_all_true ndebug c c.postconditions w hposts
    revert h
    unfold contract.destructor
    generalize c.destructor_body ndebug c.postconditions w = r
    rcases r with ⟨o, w1⟩
    cases o <;> simp

theorem passing_check_has_no_effect_witness :
    always_true fresh_world.env = true ∧
      ((contract.ctor "f" contract.behavior.log_and_terminate
          contract.evaluation.always).precondition false always_true "m" fresh_world).1 =
        Outcome.returned
          (contract.ctor "f" contract.behavior.log_and_terminate contract.evaluation.always) :=
  ⟨rfl,
    (passing_check_has_no_effect false
      (contract.ctor "f" contract.behavior.log_and_terminate contract.evaluation.always)
      always_true "m" fresh_world rfl).2.1.1⟩

/-- C7. For every check kind `t`, contract name `n` and message `m`, `log`
appends to the error stream exactly
`verb t ++ (if n is empty then "" else " in " ++ n) ++
(if m is empty then "" else ": " ++ m) ++ "\n"` and changes nothing else, where
the verb is `precondition failed`, `condition failed` or `postcondition failed`;
with name `foo`, message `bar` and kind precondition the text is the line
`precondition failed in foo: bar`, and with empty name and message and kind
condition it is the line `condition failed`. -/
theorem log_writes_diagnostic_line {σ : Type} (c : contract σ) (m : String)
    (t : contract.type) (w : World σ) :
    c.log m t w =
        { env := w.env,
          cerr := w.cerr ++
            (diagnostic_verb t ++
              (if c.function_name = "" then "" else " in " ++ c.function_name) ++
              (if m = "" then "" else ": " ++ m) ++ "\n"),
          calls := w.calls } ∧
      (diagnostic_verb contract.type.precondition = "precondition failed" ∧
        diagnostic_verb contract.type.condition = "condition failed" ∧
        diagnostic_verb contract.type.postcondition = "postcondition failed") ∧
      (c.function_name = "foo" →
        (c.log "bar" contract.type.precondition w).cerr =
          w.cerr ++ "precondition failed in foo: bar\n") ∧
      (c.function_name = "" →
        (c.log "" contract.type.condition w).cerr = w.cerr ++ "condition failed\n") := by
  refine ⟨log_eq c m t w, ⟨rfl, rfl, rfl⟩, fun h => ?_, fun h => ?_⟩
  · rw [log_eq, h]
    rfl
  · rw [log_eq, h]
    rfl

theorem log_writes_diagnostic_line_witness :
    ((contract.ctor "foo" contract.behavior.log contract.evaluation.always :
          contract Unit).log "bar" contract.type.precondition fresh_world).cerr =
      fresh_world.cerr ++ "precondition failed in foo: bar\n" :=
  (log_writes_diagnostic_line
    (contract.ctor "foo" contract.behavior.log contract.evaluation.always : contract Unit)
    "bar" contract.type.precondition fresh_world).2.2.1 rfl

/-- C8, as stated, fails: with behavior `log_and_exception`, evaluation `always`,
a functor that returns false and the three-character message `nul_message`,
whose second character is NUL, the evaluation writes the line with the whole
message and raises a `contract_exception` whose description is `a`, which is not
the message. -/
theorem log_and_exception_description_truncated :
    ((contract.ctor "f" contract.behavior.log_and_exception
        contract.evaluation.always).evaluate false always_false nul_message
        contract.type.precondition fresh_world).1 = Outcome.thrown { what := "a" } ∧
      ((contract.ctor "f" contract.behavior.log_and_exception
        contract.evaluation.always).evaluate false always_false nul_message
        contract.type.precondition fresh_world).2.cerr =
          "precondition failed in f: " ++ nul_message ++ "\n" ∧
      ¬ ((contract.ctor "f" contract.behavior.log_and_exception
        contract.evaluation.always).evaluate false always_false nul_message
        contract.type.precondition fresh_world).1 = Outcome.thrown { what := nul_message } := by
  refine ⟨by decide, by decide, by decide⟩

/-- C8, amended. For every contract with behavior `log_and_exception` and
evaluation `always`, every check kind and every functor that returns false with
message `m`, the evaluation invokes the functor once, appends exactly the
diagnostic line of that kind, which holds the whole of `m`, to the error stream
and ends by raising a `contract_exception` whose description is `m` read as a
C string: the part of `m` before its first NUL character, which is `m` itself
when `m` has no NUL character.  The line is in the output at the moment the
exception is raised; `precondition` and `condition` pass this exception on to
their caller. -/
theorem log_and_exception_logs_then_raises {σ : Type} (ndebug : Bool) (c : contract σ)
    (f : contract.functor_t σ) (m : String) (w : World σ)
    (hb : c.b = contract.behavior.log_and_exception)
    (he : c.e = contract.evaluation.always) (hf : f w.env = false) :
    (∀ t : contract.type,
        c.evaluate ndebug f m t w =
          (Outcome.thrown { what := c_str m },
            { env := w.env, cerr := w.cerr ++ diagnostic_line t c.function_name m,
              calls := w.calls ++ [f] })) ∧
      c.precondition ndebug f m w =
        (Outcome.thrown { what := c_str m },
          { env := w.env,
            cerr := w.cerr ++ diagnostic_line contract.type.precondition c.function_name m,
            calls := w.calls ++ [f] }) ∧
      c.condition ndebug f m w =
        (Outcome.thrown { what := c_str m },
          { env := w.env,
            cerr := w.cerr ++ diagnostic_line contract.type.condition c.function_name m,
            calls := w.calls ++ [f] }) ∧
      ((∃ rest : String, m = c_str m ++ rest) ∧
        ∀ ch ∈ (c_str m).data, ch ≠ Char.ofNat 0) ∧
      ((∀ ch ∈ m.data, ch ≠ Char.ofNat 0) → c_str m = m) := by
  have hev : evaluated ndebug c.e = true := by simp [he, evaluated]
  have h : ∀ t : contract.type,
      c.evaluate ndebug f m t w =
        (Outcome.thrown { what := c_str m },
          { env := w.env, cerr := w.cerr ++ diagnostic_line t c.function_name m,
            calls := w.calls ++ [f] }) := by
    intro t
    rw [evaluate_of_evaluated ndebug c _ _ _ _ hev, evaluate_always_false c _ _ _ _ hf, hb]
    rfl
  refine ⟨h, ?_, ?_, c_str_initial m, c_str_of_no_nul m⟩
  · simp [contract.precondition, h]
  · simp [contract.condition, h]

theorem log_and_exception_logs_then_raises_witness :
    always_false fresh_world.env = false ∧
      (contract.ctor "foo" contract.behavior.log_and_exception
          contract.evaluation.always).precondition false always_false "bar" fresh_world =
        (Outcome.thrown { what := c_str "bar" },
          { env := fresh_world.env,
            cerr := fresh_world.cerr ++
              diagnostic_line contract.type.precondition
                (contract.ctor "foo" contract.behavior.log_and_exception
                  contract.evaluation.always : contract Unit).function_name "bar",
            calls := fresh_world.calls ++ [always_false] }) ∧
      c_str "bar" = "bar" :=
  ⟨rfl,
    (log_and_exception_logs_then_raises false
      (contract.ctor "foo" contract.behavior.log_and_exception contract.evaluation.always)
      always_false "bar" fresh_world rfl rfl rfl).2.1,
    by decide⟩

/-- C9, as stated, fails: with behavior `exception`, evaluation `always`, a
functor that returns false and the three-character message `nul_message`, whose
second character is NUL, `precondition` raises a `contract_exception` whose
description is `a`, which differs from the message. -/
theorem exception_description_truncated :
    ∃ ex,
      ((contract.ctor "f" contract.behavior.exception
          contract.evaluation.always).precondition false always_false nul_message
          fresh_world).1 = Outcome.thrown ex ∧
        ex.what = "a" ∧ ¬ ex.what = nul_message :=
  ⟨{ what := "a" }, by rfl, by rfl, by decide⟩

/-- C9, amended. For every behavior, evaluation policy, build mode, check kind,
functor and message `m`: the evaluation of a check, and so `precondition` and
`condition`, raises a `contract_exception` exactly when the policy causes the
functor to be called, the functor returns false and the behavior is `exception`
or `log_and_exception`; the description of a raised exception is `m` read as a
C string, the part of `m` before its first NUL character, which is `m` itself
character for character when `m` has no NUL character; and under behavior
`exception` nothing is written to the error stream. -/
theorem exception_iff_evaluated_failed_throwing {σ : Type} (ndebug : Bool)
    (c : contract σ) (f : contract.functor_t σ) (m : String) (w : World σ) :
    (∀ t : contract.type,
        ((∃ ex, (c.evaluate ndebug f m t w).1 = Outcome.thrown ex) ↔
          (evaluated ndebug c.e = true ∧ f w.env = false ∧
            (c.b = contract.behavior.exception ∨
              c.b = contract.behavior.log_and_exception))) ∧
        (∀ ex, (c.evaluate ndebug f m t w).1 = Outcome.thrown ex → ex.what = c_str m) ∧
        (c.b = contract.behavior.exception → (c.evaluate ndebug f m t w).2.cerr = w.cerr)) ∧
      (((∃ ex, (c.precondition ndebug f m w).1 = Outcome.thrown ex) ↔
          (evaluated ndebug c.e = true ∧ f w.env = false ∧
            (c.b = contract.behavior.exception ∨
              c.b = contract.behavior.log_and_exception))) ∧
        (∀ ex, (c.precondition ndebug f m w).1 = Outcome.thrown ex → ex.what = c_str m) ∧
        (c.b = contract.behavior.exception →
          (c.precondition ndebug f m w).2.cerr = w.cerr)) ∧
      (((∃ ex, (c.condition ndebug f m w).1 = Outcome.thrown ex) ↔
          (evaluated ndebug c.e = true ∧ f w.env = false ∧
            (c.b = contract.behavior.exception ∨
              c.b = contract.behavior.log_and_exception))) ∧
        (∀ ex, (c.condition ndebug f m w).1 = Outcome.thrown ex → ex.what = c_str m) ∧
        (c.b = contract.behavior.exception →
          (c.condition ndebug f m w).2.cerr = w.cerr)) ∧
      ((∃ rest : String, m = c_str m ++ rest) ∧
        ∀ ch ∈ (c_str m).data, ch ≠ Char.ofNat 0) ∧
      ((∀ ch ∈ m.data, ch ≠ Char.ofNat 0) → c_str m = m) := by
  refine ⟨?_, ?_, ?_, c_str_initial m, c_str_of_no_nul m⟩
  all_goals
    cases hev : evaluated ndebug c.e
    · simp [contract.precondition, contract.condition,
        evaluate_of_not_evaluated ndebug c _ _ _ _ hev]
    · cases hf : f w.env
      · cases hb : c.b <;>
          simp [contract.precondition, contract.condition, contract_exception.ctor,
            evaluate_of_evaluated ndebug c _ _ _ _ hev, evaluate_always_false c _ _ _ _ hf, hb]
      · simp [contract.precondition, contract.condition,
          evaluate_of_evaluated ndebug c _ _ _ _ hev, evaluate_always_true c _ _ _ _ hf]

/-- C10. For every contract with evaluation `always`, every check kind and every
functor that returns false: under behavior `terminate` the evaluation ends in
the process-abort outcome with the error stream as it was, and under behavior
`log_and_terminate` it appends exactly the diagnostic line of that kind and then
ends in the process-abort outcome.  `precondition` and `condition` end the same
way, and so does the finalization of a contract whose pending postcheck is that
functor; none of them raises a `contract_exception` or returns. -/
theorem terminate_behaviors_abort {σ : Type} (ndebug : Bool) (c : contract σ)
    (f : contract.functor_t σ) (m : String) (w : World σ)
    (he : c.e = contract.evaluation.always) (hf : f w.env = false) :
    (c.b = contract.behavior.terminate →
        (∀ t : contract.type,
          c.evaluate ndebug f m t w =
            (Outcome.terminated,
              { env := w.env, cerr := w.cerr, calls := w.calls ++ [f] })) ∧
        c.precondition ndebug f m w =
          (Outcome.terminated, { env := w.env, cerr := w.cerr, calls := w.calls ++ [f] }) ∧
        c.condition ndebug f m w =
          (Outcome.terminated, { env := w.env, cerr := w.cerr, calls := w.calls ++ [f] }) ∧
        (c.postconditions = [{ functor := f, message := m }] →
          c.destructor ndebug w =
            (Outcome.terminated,
              { env := w.env, cerr := w.cerr, calls := w.calls ++ [f] }))) ∧
      (c.b = contract.behavior.log_and_terminate →
        (∀ t : contract.type,
          c.evaluate ndebug f m t w =
            (Outcome.terminated,
              { env := w.env, cerr := w.cerr ++ diagnostic_line t c.function_name m,
                calls := w.calls ++ [f] })) ∧
        c.precondition ndebug f m w =
          (Outcome.terminated,
            { env := w.env,
              cerr := w.cerr ++ diagnostic_line contract.type.precondition c.function_name m,
              calls := w.calls ++ [f] }) ∧
        c.condition ndebug f m w =
          (Outcome.terminated,
            { env := w.env,
              cerr := w.cerr ++ diagnostic_line contract.type.condition c.function_name m,
              calls := w.calls ++ [f] }) ∧
        (c.postconditions = [{ functor := f, message := m }] →
          c.destructor ndebug w =
            (Outcome.terminated,
              { env := w.env,
                cerr := w.cerr ++
                  diagnostic_line contract.type.postcondition c.function_name m,
                calls := w.calls ++ [f] }))) := by
  have hev : evaluated ndebug c.e = true := by simp [he, evaluated]
  constructor
  · intro hb
    have h : ∀ t : contract.type,
        c.evaluate ndebug f m t w =
          (Outcome.terminated,
            { env := w.env, cerr := w.cerr, calls := w.calls ++ [f] }) := by
      intro t
      rw [evaluate_of_evaluated ndebug c _ _ _ _ hev, evaluate_always_false c _ _ _ _ hf, hb]
    refine ⟨h, ?_, ?_, fun hp => ?_⟩
    · simp [contract.precondition, h]
    · simp [contract.condition, h]
    · simp [contract.destructor, hp, contract.destructor_body, h]
  · intro hb
    have h : ∀ t : contract.type,
        c.evaluate ndebug f m t w =
          (Outcome.terminated,
            { env := w.env, cerr := w.cerr ++ diagnostic_line t c.function_name m,
              calls := w.calls ++ [f] }) := by
      intro t
      rw [evaluate_of_evaluated ndebug c _ _ _ _ hev, evaluate_always_false c _ _ _ _ hf, hb]
    refine ⟨h, ?_, ?_, fun hp => ?_⟩
    · simp [contract.precondition, h]
    · simp [contract.condition, h]
    · simp [contract.destructor, hp, contract.destructor_body, h]

theorem terminate_behaviors_abort_witness :
    always_false fresh_world.env = false ∧
      (contract.ctor "foo" contract.behavior.log_and_terminate
          contract.evaluation.always).condition false always_false "bar" fresh_world =
        (Outcome.terminated,
          { env := fresh_world.env,
            cerr := fresh_world.cerr ++
              diagnostic_line contract.type.condition
                (contract.ctor "foo" contract.behavior.log_and_terminate
                  contract.evaluation.always : contract Unit).function_name "bar",
            calls := fresh_world.calls ++ [always_false] }) :=
  ⟨rfl,
    ((terminate_behaviors_abort false
      (contract.ctor "foo" contract.behavior.log_and_terminate contract.evaluation.always)
      always_false "bar" fresh_world rfl rfl).2 rfl).2.2.1⟩

theorem exception_iff_evaluated_failed_throwing_witness :
    (∃ ex,
      ((contract.ctor "foo" contract.behavior.exception
          contract.evaluation.always).precondition false always_false "bar" fresh_world).1 =
        Outcome.thrown ex) ∧
      ((∀ ch ∈ ("bar" : String).data, ch ≠ Char.ofNat 0) ∧ c_str "bar" = "bar") :=
  ⟨((exception_iff_evaluated_failed_throwing false
      (contract.ctor "foo" contract.behavior.exception contract.evaluation.always)
      always_false "bar" fresh_world).2.1.1).2 ⟨rfl, rfl, Or.inl rfl⟩,
    by decide,
    (exception_iff_evaluated_failed_throwing false
      (contract.ctor "foo" contract.behavior.exception contract.evaluation.always)
      always_false "bar" fresh_world).2.2.2.2 (by decide)⟩

/-- C11. Under behavior `ignore`, for every evaluation policy, build mode and
message and any two functors `f` and `g`, whatever they return: `precondition`
and `condition` called with `f` and with `g` both return the unchanged contract
and leave the error stream and the captured variables as they were; and the
finalization of two contracts that differ only in their pending postchecks both
return normally with the error stream and the captured variables as they were.
Nothing is written, raised or terminated, so what can be observed is the
same. -/
theorem ignore_failure_indistinguishable {σ : Type} (ndebug : Bool) (c : contract σ)
    (f g : contract.functor_t σ) (m : String) (posts1 posts2 : List (contract.post σ))
    (w : World σ) (hb : c.b = contract.behavior.ignore) :
    ((c.precondition ndebug f m w).1 = Outcome.returned c ∧
        (c.precondition ndebug g m w).1 = Outcome.returned c ∧
        (c.precondition ndebug f m w).2.cerr = w.cerr ∧
        (c.precondition ndebug g m w).2.cerr = w.cerr ∧
        (c.precondition ndebug f m w).2.env = w.env ∧
        (c.precondition ndebug g m w).2.env = w.env) ∧
      ((c.condition ndebug f m w).1 = Outcome.returned c ∧
        (c.condition ndebug g m w).1 = Outcome.returned c ∧
        (c.condition ndebug f m w).2.cerr = w.cerr ∧
        (c.condition ndebug g m w).2.cerr = w.cerr ∧
        (c.condition ndebug f m w).2.env = w.env ∧
        (c.condition ndebug g m w).2.env = w.env) ∧
      (({ c with postconditions := posts1 } : contract σ).destructor ndebug w).1 =
        Outcome.returned () ∧
      (({ c with postconditions := posts2 } : contract σ).destructor ndebug w).1 =
        Outcome.returned () ∧
      (({ c with postconditions := posts1 } : contract σ).destructor ndebug w).2.cerr =
        w.cerr ∧
      (({ c with postconditions := posts2 } : contract σ).destructor ndebug w).2.cerr =
        w.cerr ∧
      (({ c with postconditions := posts1 } : contract σ).destructor ndebug w).2.env =
        w.env ∧
      (({ c with postconditions := posts2 } : contract σ).destructor ndebug w).2.env =
        w.env := by
  have h1 := destructor_body_ignore ndebug
    ({ c with postconditions := posts1 } : contract σ) posts1 w hb
  have h2 := destructor_body_ignore ndebug
    ({ c with postconditions := posts2 } : contract σ) posts2 w hb
  refine ⟨?_, ?_, ?_, ?_, ?_, ?_, ?_, ?_⟩
  · simp [contract.precondition, evaluate_ignore ndebug c _ _ _ _ hb]
  · simp [contract.condition, evaluate_ignore ndebug c _ _ _ _ hb]
  · exact (destructor_returned_iff ndebug _ w).2 h1.1
  · exact (destructor_returned_iff ndebug _ w).2 h2.1
  · rw [destructor_snd]
    exact h1.2.1
  · rw [destructor_snd]
    exact h2.2.1
  · rw [destructor_snd]
    exact h1.2.2
  · rw [destructor_snd]
    exact h2.2.2

theorem ignore_failure_indistinguishable_witness :
    (contract.ctor "f" contract.behavior.ignore contract.evaluation.always :
        contract Unit).b = contract.behavior.ignore ∧
      ((contract.ctor "f" contract.behavior.ignore contract.evaluation.always).precondition
          false always_false "m" fresh_world).1 =
        Outcome.returned
          (contract.ctor "f" contract.behavior.ignore contract.evaluation.always) ∧
      ((contract.ctor "f" contract.behavior.ignore contract.evaluation.always).precondition
          false always_true "m" fresh_world).1 =
        Outcome.returned
          (contract.ctor "f" contract.behavior.ignore contract.evaluation.always) :=
  ⟨rfl,
    (ignore_failure_indistinguishable false
      (contract.ctor "f" contract.behavior.ignore contract.evaluation.always)
      always_false always_true "m" [{ functor := always_false, message := "p" }]
      [{ functor := always_true, message := "p" }] fresh_world rfl).1.1,
    (ignore_failure_indistinguishable false
      (contract.ctor "f" contract.behavior.ignore contract.evaluation.always)
      always_false always_true "m" [{ functor := always_false, message := "p" }]
      [{ functor := always_true, message := "p" }] fresh_world rfl).1.2.1⟩

/-- C12. For every contract with evaluation `always`, every behavior, functor
`f` and message, a call to `precondition` or `condition` has invoked `f` exactly
once when it ends, however it ends; when it returns, the contract it returns is
the one it was called on, pending postchecks included; and finalization, from
any world, invokes only an initial segment of the pending postcheck functors,
so with no pending postcheck it invokes nothing and `f` is not invoked again. -/
theorem precondition_condition_evaluate_immediately {σ : Type} (ndebug : Bool)
    (c : contract σ) (f : contract.functor_t σ) (m : String) (w : World σ)
    (he : c.e = contract.evaluation.always) :
    ((c.precondition ndebug f m w).2.calls = w.calls ++ [f] ∧
        ∀ c1, (c.precondition ndebug f m w).1 = Outcome.returned c1 → c1 = c) ∧
      ((c.condition ndebug f m w).2.calls = w.calls ++ [f] ∧
        ∀ c1, (c.condition ndebug f m w).1 = Outcome.returned c1 → c1 = c) ∧
      (∀ w1 : World σ, ∃ k,
        (c.destructor ndebug w1).2.calls =
          w1.calls ++ (c.postconditions.take k).map contract.post.functor) ∧
      (c.postconditions = [] →
        ∀ w1 : World σ, c.destructor ndebug w1 = (Outcome.returned (), w1)) := by
  have hev : evaluated ndebug c.e = true := by simp [he, evaluated]
  have hcalls : ∀ t : contract.type, (c.evaluate ndebug f m t w).2.calls = w.calls ++ [f] := by
    intro t
    rw [evaluate_calls, hev]
    simp
  refine ⟨?_, ?_, ?_, ?_⟩
  · have h := hcalls contract.type.precondition
    unfold contract.precondition
    generalize c.evaluate ndebug f m contract.type.precondition w = r at h
    rcases r with ⟨o, w1⟩
    cases o <;> simp_all
  · have h := hcalls contract.type.condition
    unfold contract.condition
    generalize c.evaluate ndebug f m contract.type.condition w = r at h
    rcases r with ⟨o, w1⟩
    cases o <;> simp_all
  · intro w1
    rw [destructor_snd]
    exact destructor_body_calls_initial ndebug c c.postconditions w1
  · intro hp w1
    exact destructor_nil ndebug c w1 hp

theorem precondition_condition_evaluate_immediately_witness :
    (contract.ctor "f" contract.behavior.log_and_exception contract.evaluation.always :
        contract Unit).e = contract.evaluation.always ∧
      ((contract.ctor "f" contract.behavior.log_and_exception
          contract.evaluation.always).precondition false always_false "m"
          fresh_world).2.calls = fresh_world.calls ++ [always_false] :=
  ⟨rfl,
    (precondition_condition_evaluate_immediately false
      (contract.ctor "f" contract.behavior.log_and_exception contract.evaluation.always)
      always_false "m" fresh_world rfl).1.1⟩

/-- C13. With `ndebug` telling whether `NDEBUG` is defined, for every pending
sequence, name, behavior, check kind, functor and message: without `NDEBUG` a
contract with policy `debug` evaluates a check, runs `precondition` and
`condition` and finalizes exactly as the same contract with policy `always`
does (in any build mode), the functor being invoked once; with `NDEBUG` it does
so exactly as the same contract with policy `unevaluated` does, the functor not
being invoked. -/
theorem debug_policy_follows_build_mode {σ : Type} (posts : List (contract.post σ))
    (name : String) (b : contract.behavior) (f : contract.functor_t σ) (m : String)
    (w : World σ) (nd : Bool) :
    ((∀ t : contract.type,
          (contract.mk posts name b contract.evaluation.debug).evaluate false f m t w =
            (contract.mk posts name b contract.evaluation.always).evaluate nd f m t w ∧
          ((contract.mk posts name b contract.evaluation.debug).evaluate false f m t
            w).2.calls = w.calls ++ [f]) ∧
        ((contract.mk posts name b contract.evaluation.debug).precondition false f m
            w).1.discard =
          ((contract.mk posts name b contract.evaluation.always).precondition nd f m
            w).1.discard ∧
        ((contract.mk posts name b contract.evaluation.debug).precondition false f m w).2 =
          ((contract.mk posts name b contract.evaluation.always).precondition nd f m w).2 ∧
        ((contract.mk posts name b contract.evaluation.debug).condition false f m
            w).1.discard =
          ((contract.mk posts name b contract.evaluation.always).condition nd f m
            w).1.discard ∧
        ((contract.mk posts name b contract.evaluation.debug).condition false f m w).2 =
          ((contract.mk posts name b contract.evaluation.always).condition nd f m w).2 ∧
        (contract.mk posts name b contract.evaluation.debug).destructor false w =
          (contract.mk posts name b contract.evaluation.always).destructor nd w) ∧
      ((∀ t : contract.type,
          (contract.mk posts name b contract.evaluation.debug).evaluate true f m t w =
            (contract.mk posts name b contract.evaluation.unevaluated).evaluate nd f m t w ∧
          ((contract.mk posts name b contract.evaluation.debug).evaluate true f m t
            w).2.calls = w.calls) ∧
        ((contract.mk posts name b contract.evaluation.debug).precondition true f m
            w).1.discard =
          ((contract.mk posts name b contract.evaluation.unevaluated).precondition nd f m
            w).1.discard ∧
        ((contract.mk posts name b contract.evaluation.debug).precondition true f m w).2 =
          ((contract.mk posts name b contract.evaluation.unevaluated).precondition nd f m
            w).2 ∧
        ((contract.mk posts name b contract.evaluation.debug).condition true f m
            w).1.discard =
          ((contract.mk posts name b contract.evaluation.unevaluated).condition nd f m
            w).1.discard ∧
        ((contract.mk posts name b contract.evaluation.debug).condition true f m w).2 =
          ((contract.mk posts name b contract.evaluation.unevaluated).condition nd f m
            w).2 ∧
        (contract.mk posts name b contract.evaluation.debug).destructor true w =
          (contract.mk posts name b contract.evaluation.unevaluated).destructor nd w) := by
  have ha : evaluated false (contract.mk posts name b contract.evaluation.debug).e =
      evaluated nd (contract.mk posts name b contract.evaluation.always).e := by
    simp [evaluated]
  have hu : evaluated true (contract.mk posts name b contract.evaluation.debug).e =
      evaluated nd (contract.mk posts name b contract.evaluation.unevaluated).e := by
    simp [evaluated]
  have hea := fun t => evaluate_congr false nd
    (contract.mk posts name b contract.evaluation.debug)
    (contract.mk posts name b contract.evaluation.always) f m t w rfl rfl ha
  have heu := fun t => evaluate_congr true nd
    (contract.mk posts name b contract.evaluation.debug)
    (contract.mk posts name b contract.evaluation.unevaluated) f m t w rfl rfl hu
  refine ⟨⟨fun t => ⟨hea t, ?_⟩, ?_, ?_, ?_, ?_, ?_⟩, ⟨fun t => ⟨heu t, ?_⟩, ?_, ?_, ?_, ?_, ?_⟩⟩
  · rw [evaluate_calls]
    simp [evaluated]
  · rw [(precondition_eq _ _ _ _ _).1, (precondition_eq _ _ _ _ _).1, hea]
  · rw [(precondition_eq _ _ _ _ _).2.1, (precondition_eq _ _ _ _ _).2.1, hea]
  · rw [(condition_eq _ _ _ _ _).1, (condition_eq _ _ _ _ _).1, hea]
  · rw [(condition_eq _ _ _ _ _).2.1, (condition_eq _ _ _ _ _).2.1, hea]
  · exact destructor_congr false nd _ _ w rfl rfl rfl ha
  · rw [evaluate_calls]
    simp [evaluated]
  · rw [(precondition_eq _ _ _ _ _).1, (precondition_eq _ _ _ _ _).1, heu]
  · rw [(precondition_eq _ _ _ _ _).2.1, (precondition_eq _ _ _ _ _).2.1, heu]
  · rw [(condition_eq _ _ _ _ _).1, (condition_eq _ _ _ _ _).1, heu]
  · rw [(condition_eq _ _ _ _ _).2.1, (condition_eq _ _ _ _ _).2.1, heu]
  · exact destructor_congr true nd _ _ w rfl rfl rfl hu

theorem debug_policy_follows_build_mode_witness :
    (contract.mk [] "f" contract.behavior.log contract.evaluation.debug).destructor true
        fresh_world =
      (contract.mk [] "f" contract.behavior.log contract.evaluation.unevaluated).destructor
        false fresh_world :=
  (debug_policy_follows_build_mode [] "f" contract.behavior.log always_false "m" fresh_world
    false).2.2.2.2.2.2

/-- C14. For every contract state, build mode, functor `f` and message `m`,
`condition(f, m)` and `precondition(f, m)` end the same way (normal return of the
same contract, the same exception, or termination), invoke `f` the same number
of times and leave the captured variables alike; either both write nothing, or
`precondition` writes `precondition failed` followed by some text and
`condition` writes `condition failed` followed by the same text; and under the
behaviors `ignore`, `exception` and `terminate` the two calls give equal
results. -/
theorem condition_differs_only_in_verb {σ : Type} (ndebug : Bool) (c : contract σ)
    (f : contract.functor_t σ) (m : String) (w : World σ) :
    (c.condition ndebug f m w).1 = (c.precondition ndebug f m w).1 ∧
      (c.condition ndebug f m w).2.calls = (c.precondition ndebug f m w).2.calls ∧
      (c.condition ndebug f m w).2.env = (c.precondition ndebug f m w).2.env ∧
      (((c.precondition ndebug f m w).2.cerr = w.cerr ∧
          (c.condition ndebug f m w).2.cerr = w.cerr) ∨
        ∃ tail : String,
          (c.precondition ndebug f m w).2.cerr = w.cerr ++ ("precondition failed" ++ tail) ∧
            (c.condition ndebug f m w).2.cerr = w.cerr ++ ("condition failed" ++ tail)) ∧
      ((c.b = contract.behavior.ignore ∨ c.b = contract.behavior.exception ∨
          c.b = contract.behavior.terminate) →
        c.condition ndebug f m w = c.precondition ndebug f m w) := by
  cases hev : evaluated ndebug c.e
  · simp [contract.precondition, contract.condition,
      evaluate_of_not_evaluated ndebug c _ _ _ _ hev]
  · cases hf : f w.env
    · cases hb : c.b <;>
        simp [-String.reduceAppend, contract.precondition, contract.condition,
          evaluate_of_evaluated ndebug c _ _ _ _ hev, evaluate_always_false c _ _ _ _ hf, hb,
          diagnostic_line_split, diagnostic_verb]
      all_goals
        exact Or.inr ⟨_, rfl, rfl⟩
    · simp [contract.precondition, contract.condition,
        evaluate_of_evaluated ndebug c _ _ _ _ hev, evaluate_always_true c _ _ _ _ hf]

theorem condition_differs_only_in_verb_witness :
    (contract.ctor "f" contract.behavior.exception contract.evaluation.always).condition
        false always_false "m" fresh_world =
      (contract.ctor "f" contract.behavior.exception contract.evaluation.always).precondition
        false always_false "m" fresh_world :=
  (condition_differs_only_in_verb false
    (contract.ctor "f" contract.behavior.exception contract.evaluation.always)
    always_false "m" fresh_world).2.2.2.2 (Or.inr (Or.inl rfl))

/-- C15. For every odd `value`, and so for 3, `test(value)` of `test.cpp` ends
by raising a `contract_exception` (with the empty description, no message having
been given); the only text written is the line `precondition failed in test`;
the only functor invoked is the precondition functor, once; the exception comes
from the call of `precondition`, the first of the chain, so `postcondition` is
never called and the postcondition functor is neither registered nor
invoked. -/
theorem test_odd_precondition_fails (ndebug : Bool) (value : Int) (hodd : value % 2 = 1) :
    test ndebug value =
        (Outcome.thrown { what := "" },
          { env := { value := value, value_before := value },
            cerr := "precondition failed in test\n",
            calls := [test_precondition] }) ∧
      ((contract.ctor "test" contract.behavior.log_and_exception
          contract.evaluation.always).precondition ndebug test_precondition ""
          { env := { value := value, value_before := value }, cerr := "", calls := [] }).1 =
        Outcome.thrown { what := "" } := by
  have hpre := test_precondition_odd value value hodd
  constructor
  · simp [test, contract.precondition, contract.ctor, contract.destructor,
      contract.destructor_body, contract.evaluate, contract.evaluate_always, World.invoke,
      hpre, log_eq, ctor_what_empty]
    decide
  · simp [contract.precondition, contract.ctor, contract.evaluate,
      contract.evaluate_always, World.invoke, hpre, ctor_what_empty]

theorem test_odd_precondition_fails_witness :
    (3 : Int) % 2 = 1 ∧
      test false 3 =
        (Outcome.thrown { what := "" },
          { env := { value := 3, value_before := 3 },
            cerr := "precondition failed in test\n",
            calls := [test_precondition] }) :=
  ⟨by decide, (test_odd_precondition_fails false 3 (by decide)).1⟩

/-- C16. For every contract state, build mode, functor and message: when
`precondition` or `condition` returns, the contract it returns is the one it was
called on, pending postchecks included; the contract `postcondition` returns has
the same name, behavior and evaluation policy; the same holds at the end of any
chain of calls that returns; and the chain
`c.precondition(f1, m1).condition(f2, m2).postcondition(f3, m3)`, when it
returns, returns `c` with `(f3, m3)` appended to its pending postchecks, so its
finalization evaluates with the behavior and policy of `c`. -/
theorem configuration_is_immutable {σ : Type} (ndebug : Bool) (c : contract σ)
    (f : contract.functor_t σ) (m : String) (calls : List (check_call σ)) (w : World σ) :
    (∀ c1, (c.precondition ndebug f m w).1 = Outcome.returned c1 → c1 = c) ∧
      (∀ c1, (c.condition ndebug f m w).1 = Outcome.returned c1 → c1 = c) ∧
      (∀ c1, (c.postcondition f m w).1 = Outcome.returned c1 →
        c1.function_name = c.function_name ∧ c1.b = c.b ∧ c1.e = c.e) ∧
      (∀ c1, (call_chain ndebug c calls w).1 = Outcome.returned c1 →
        c1.function_name = c.function_name ∧ c1.b = c.b ∧ c1.e = c.e) ∧
      (∀ (f1 f2 f3 : contract.functor_t σ) (m1 m2 m3 : String) (c3 : contract σ),
        (call_chain ndebug c
            [check_call.precondition f1 m1, check_call.condition f2 m2,
              check_call.postcondition f3 m3] w).1 = Outcome.returned c3 →
          c3 =
            { postconditions := c.postconditions ++ [{ functor := f3, message := m3 }],
              function_name := c.function_name, b := c.b, e := c.e }) := by
  refine ⟨(precondition_eq ndebug c f m w).2.2, (condition_eq ndebug c f m w).2.2, ?_,
    fun c1 h => call_chain_config ndebug calls c c1 w h, ?_⟩
  · intro c1 h
    exact check_call_run_config ndebug c c1 (check_call.postcondition f m) w h
  · intro f1 f2 f3 m1 m2 m3 c3 h
    simp only [call_chain, check_call.run] at h
    have hp := (precondition_eq ndebug c f1 m1 w).2.2
    generalize c.precondition ndebug f1 m1 w = r1 at h hp
    rcases r1 with ⟨o1, w1⟩
    cases o1 with
    | thrown ex => simp at h
    | terminated => simp at h
    | returned c1 =>
        have e1 : c1 = c := hp c1 rfl
        subst e1
        simp only at h
        have hc := (condition_eq ndebug c1 f2 m2 w1).2.2
        generalize c1.condition ndebug f2 m2 w1 = r2 at h hc
        rcases r2 with ⟨o2, w2⟩
        cases o2 with
        | thrown ex => simp at h
        | terminated => simp at h
        | returned c2 =>
            have e2 : c2 = c1 := hc c2 rfl
            subst e2
            simp only [contract.postcondition, Outcome.returned.injEq] at h
            exact h.symm

theorem configuration_is_immutable_witness :
    ∀ c1,
      ((contract.ctor "f" contract.behavior.log contract.evaluation.always).precondition
          false always_false "m" fresh_world).1 = Outcome.returned c1 →
        c1 = contract.ctor "f" contract.behavior.log contract.evaluation.always :=
  (configuration_is_immutable false
    (contract.ctor "f" contract.behavior.log contract.evaluation.always) always_false "m" []
    fresh_world).1

/-- C17. A contract constructed with only a name, or default-constructed, has
behavior `ignore`, evaluation policy `unevaluated` and no pending postcheck; and
for every build mode and every chain of `precondition`, `condition` and
`postcondition` calls on it, the chain returns with the world as it was, and the
finalization of the contract it returns does too: no functor is invoked, nothing
is written, nothing is raised and nothing terminates. -/
theorem default_contract_is_inert {σ : Type} (ndebug : Bool) (name : String)
    (calls : List (check_call σ)) (w : World σ) :
    ((contract.ctor_name name : contract σ).b = contract.behavior.ignore ∧
        (contract.ctor_name name : contract σ).e = contract.evaluation.unevaluated ∧
        (contract.ctor_name name : contract σ).postconditions = [] ∧
        (contract.ctor_name name : contract σ).function_name = name) ∧
      ((contract.ctor_default : contract σ).b = contract.behavior.ignore ∧
        (contract.ctor_default : contract σ).e = contract.evaluation.unevaluated ∧
        (contract.ctor_default : contract σ).postconditions = [] ∧
        (contract.ctor_default : contract σ).function_name = "") ∧
      (∃ c1, call_chain ndebug (contract.ctor_name name) calls w = (Outcome.returned c1, w) ∧
        c1.destructor ndebug w = (Outcome.returned (), w)) ∧
      (∃ c1, call_chain ndebug contract.ctor_default calls w = (Outcome.returned c1, w) ∧
        c1.destructor ndebug w = (Outcome.returned (), w)) := by
  refine ⟨⟨rfl, rfl, rfl, rfl⟩, ⟨rfl, rfl, rfl, rfl⟩, ?_, ?_⟩
  · obtain ⟨c1, h1, h2⟩ := call_chain_not_evaluated ndebug calls
      (contract.ctor_name name : contract σ) w (by simp [contract.ctor_name, contract.ctor, evaluated])
    have he : evaluated ndebug c1.e = false := by
      simp [h2, contract.ctor_name, contract.ctor, evaluated]
    exact ⟨c1, h1, by
      simp [contract.destructor, destructor_body_not_evaluated ndebug c1 _ _ he]⟩
  · obtain ⟨c1, h1, h2⟩ := call_chain_not_evaluated ndebug calls
      (contract.ctor_default : contract σ) w (by simp [contract.ctor_default, evaluated])
    have he : evaluated ndebug c1.e = false := by
      simp [h2, contract.ctor_default, evaluated]
    exact ⟨c1, h1, by
      simp [contract.destructor, destructor_body_not_evaluated ndebug c1 _ _ he]⟩

theorem default_contract_is_inert_witness :
    ∃ c1,
      call_chain false (contract.ctor_name "f")
          [check_call.precondition always_false "a", check_call.postcondition always_false "b"]
          fresh_world = (Outcome.returned c1, fresh_world) ∧
        c1.destructor false fresh_world = (Outcome.returned (), fresh_world) :=
  (default_contract_is_inert false "f"
    [check_call.precondition always_false "a", check_call.postcondition always_false "b"]
    fresh_world).2.2.1

/-- C18. For every contract `c`, the copy made by the copy constructor has the
same pending postchecks, name, behavior and evaluation policy as `c`; from any
world, whether or not `c` has been finalized, finalizing the copy does what
finalizing `c` does from that world; and with evaluation `always` and behavior
`ignore` or `log`, finalizing `c` and then its copy returns both times, the
first having invoked every pending functor once in order and the two together
having invoked that sequence twice. -/
theorem copy_shares_pending_postchecks {σ : Type} (ndebug : Bool) (c : contract σ)
    (w : World σ) :
    ((contract.ctor_copy c).postconditions = c.postconditions ∧
        (contract.ctor_copy c).function_name = c.function_name ∧
        (contract.ctor_copy c).b = c.b ∧ (contract.ctor_copy c).e = c.e) ∧
      (∀ w1 : World σ, (contract.ctor_copy c).destructor ndebug w1 = c.destructor ndebug w1) ∧
      (c.e = contract.evaluation.always →
        (c.b = contract.behavior.ignore ∨ c.b = contract.behavior.log) →
        ∃ w1 w2,
          c.destructor ndebug w = (Outcome.returned (), w1) ∧
            (contract.ctor_copy c).destructor ndebug w1 = (Outcome.returned (), w2) ∧
            w1.calls = w.calls ++ c.postconditions.map contract.post.functor ∧
            w2.calls =
              w.calls ++
                (c.postconditions.map contract.post.functor ++
                  c.postconditions.map contract.post.functor)) := by
  refine ⟨⟨rfl, rfl, rfl, rfl⟩, fun w1 => rfl, fun he hb => ?_⟩
  have hev : evaluated ndebug c.e = true := by simp [he, evaluated]
  obtain ⟨w1, h1, hc1, henv1⟩ := destructor_nonthrowing_calls ndebug c w hev hb
  obtain ⟨w2, h2, hc2, _⟩ := destructor_nonthrowing_calls ndebug c w1 hev hb
  refine ⟨w1, w2, h1, h2, hc1, ?_⟩
  rw [hc2, hc1, List.append_assoc]

theorem copy_shares_pending_postchecks_witness :
    ∃ w1 w2,
      (two_postchecks contract.behavior.log contract.evaluation.always).destructor false
          fresh_world = (Outcome.returned (), w1) ∧
        (contract.ctor_copy
            (two_postchecks contract.behavior.log contract.evaluation.always)).destructor
          false w1 = (Outcome.returned (), w2) ∧
        w1.calls =
          fresh_world.calls ++
            (two_postchecks contract.behavior.log
              contract.evaluation.always).postconditions.map contract.post.functor ∧
        w2.calls =
          fresh_world.calls ++
            ((two_postchecks contract.behavior.log
                contract.evaluation.always).postconditions.map contract.post.functor ++
              (two_postchecks contract.behavior.log
                contract.evaluation.always).postconditions.map contract.post.functor) :=
  (copy_shares_pending_postchecks false
    (two_postchecks contract.behavior.log contract.evaluation.always) fresh_world).2.2 rfl
    (Or.inr rfl)
